import Mathlib

/-!
# Verification of the pattern-dump (Reconciler) facility

Shallow embedding of `crates/wasm/src/lib.rs`: the `dump_pattern` entry point
and the recursive `dump_pattern_node` reconciliation walk, together with the
data they operate on.  External collaborators (the tree-sitter parser, the
core pattern compiler and matcher, the language registry) live in other
crates of the repository that are not part of the verified source; they are
modelled as oracles/fields, faithful to the spec's boundary contracts.
-/

namespace SecureAstGrep

/-- A tree-sitter source position (`ts_types::Point`): row and column. -/
structure Point where
  row : Nat
  column : Nat
deriving DecidableEq, Repr

/-- `PatternPos` of `lib.rs` (lines 84-88): line and column of an output node. -/
structure PatternPos where
  line : Nat
  column : Nat
deriving DecidableEq, Repr

/-- `impl From<ts_types::Point> for PatternPos` (lib.rs lines 90-97):
`line := p.row()`, `column := p.column()`. -/
def PatternPos.ofPoint (p : Point) : PatternPos :=
  { line := p.row, column := p.column }

/-- Modelled from the spec: the language value (`WasmLang`, in
`crates/wasm/src/wasm_lang.rs`, not under the verified source).  The only
capability `dump_pattern_node` uses is `expando_char()`, the language's
designated expando character used in meta-variable preprocessing. -/
structure WasmLang where
  expando_char : Char
deriving DecidableEq

/-- Modelled from the spec: a Concrete Node, the read-only view into a
Document's syntax tree (spec §3).  It exposes exactly the data the
Reconciler reads: kind name, the parser's "missing" flag, start/end source
positions, the raw source text of its span, and ordered children. -/
inductive ConcreteNode : Type where
  | mk (kind : String) (is_missing : Bool) (start_position : Point)
      (end_position : Point) (text : String)
      (children : List ConcreteNode) : ConcreteNode

def ConcreteNode.kind : ConcreteNode → String
  | .mk k _ _ _ _ _ => k

def ConcreteNode.is_missing : ConcreteNode → Bool
  | .mk _ m _ _ _ _ => m

def ConcreteNode.start_position : ConcreteNode → Point
  | .mk _ _ s _ _ _ => s

def ConcreteNode.end_position : ConcreteNode → Point
  | .mk _ _ _ e _ _ => e

def ConcreteNode.text : ConcreteNode → String
  | .mk _ _ _ _ t _ => t

def ConcreteNode.children : ConcreteNode → List ConcreteNode
  | .mk _ _ _ _ _ cs => cs

/-- Modelled from the spec: `ast_grep_core::matcher::PatternNode`
(`crates/core`, not under the verified source) — the closed three-variant
matcher-tree element of spec §3: a Terminal leaf carrying its own named
flag, a capturing MetaVar, or an Internal node with ordered children. -/
inductive PatternNode : Type where
  | MetaVar (meta_var : String) : PatternNode
  | Terminal (text : String) (is_named : Bool) (kind_id : Nat) : PatternNode
  | Internal (kind_id : Nat) (children : List PatternNode) : PatternNode

/-- `PatternKind` of `lib.rs` (lines 76-82): the tag naming which
pattern-node variant produced an output node. -/
inductive PatternKind : Type where
  | Terminal : PatternKind
  | MetaVar : PatternKind
  | Internal : PatternKind
deriving DecidableEq, Repr

/-- `PatternTree` of `lib.rs` (lines 99-109): the Output Tree node. -/
inductive PatternTree : Type where
  | mk (kind : String) (start : PatternPos) (stop : PatternPos)
      (is_named : Bool) (children : List PatternTree)
      (text : Option String) (pattern : Option PatternKind) : PatternTree

def PatternTree.kind : PatternTree → String
  | .mk k _ _ _ _ _ _ => k

/-- The `start` field of `PatternTree`. -/
def PatternTree.start : PatternTree → PatternPos
  | .mk _ s _ _ _ _ _ => s

/-- The `end` field of `PatternTree` (`end` is a Lean keyword). -/
def PatternTree.stop : PatternTree → PatternPos
  | .mk _ _ e _ _ _ _ => e

def PatternTree.is_named : PatternTree → Bool
  | .mk _ _ _ n _ _ _ => n

def PatternTree.children : PatternTree → List PatternTree
  | .mk _ _ _ _ cs _ _ => cs

def PatternTree.text : PatternTree → Option String
  | .mk _ _ _ _ _ t _ => t

def PatternTree.pattern : PatternTree → Option PatternKind
  | .mk _ _ _ _ _ _ p => p

/-- Rust `node.text().to_string().replace(expando, "$")` (lib.rs line 159):
every occurrence of the expando character is replaced by the sigil `$`.
Since the replacement is a single character, `str::replace` is exactly a
character-wise map over the string. -/
def replaceExpando (expando : Char) (s : String) : String :=
  String.mk (s.data.map fun c => if c = expando then '$' else c)

/-- The kind label computed at lib.rs lines 151-155: prefix `"MISSING "`
when the parser flagged the concrete node as missing, else the plain kind. -/
def kindLabel (node : ConcreteNode) : String :=
  if node.is_missing then "MISSING " ++ node.kind else node.kind

mutual

/-- `dump_pattern_node` of `lib.rs` (lines 148-196): walk the pattern
matcher-tree and the matched concrete node together, emitting one
`PatternTree` node per visited pair. -/
def dump_pattern_node (lang : WasmLang) (node : ConcreteNode) :
    PatternNode → PatternTree
  | .MetaVar _ =>
      .mk (kindLabel node) (PatternPos.ofPoint node.start_position)
        (PatternPos.ofPoint node.end_position) true []
        (some (replaceExpando lang.expando_char node.text))
        (some PatternKind.MetaVar)
  | .Terminal _ is_named _ =>
      .mk (kindLabel node) (PatternPos.ofPoint node.start_position)
        (PatternPos.ofPoint node.end_position) is_named []
        (some node.text) (some PatternKind.Terminal)
  | .Internal _ children =>
      .mk (kindLabel node) (PatternPos.ofPoint node.start_position)
        (PatternPos.ofPoint node.end_position) true
        (dump_children lang children node.children) none
        (some PatternKind.Internal)

/-- The `children.iter().zip(node.children()).map(...)` of lib.rs lines
180-184: positional zip of pattern children with concrete children,
truncating at the shorter sequence, each pair dumped recursively. -/
def dump_children (lang : WasmLang) :
    List PatternNode → List ConcreteNode → List PatternTree
  | [], _ => []
  | _ :: _, [] => []
  | p :: ps, n :: ns => dump_pattern_node lang n p :: dump_children lang ps ns

end

/-- The strictness enumeration (`ast_grep_core::MatchStrictness`); the doc
comment of `dump_pattern` (lib.rs line 113) fixes the closed value set:
cst, smart, ast, relaxed, signature, template. -/
inductive MatchStrictness : Type where
  | cst : MatchStrictness
  | smart : MatchStrictness
  | ast : MatchStrictness
  | relaxed : MatchStrictness
  | signature : MatchStrictness
  | template : MatchStrictness
deriving DecidableEq, Repr

/-- Modelled from the spec: `s.parse::<MatchStrictness>()` (lib.rs line 137;
`FromStr` lives in `crates/core`, not under the verified source).  Spec §4.1:
strictness must be one of the fixed closed set {cst, smart, ast, relaxed,
signature, template}; an unrecognized value fails (`InvalidStrictness`). -/
def parse_strictness : String → Option MatchStrictness
  | "cst" => some .cst
  | "smart" => some .smart
  | "ast" => some .ast
  | "relaxed" => some .relaxed
  | "signature" => some .signature
  | "template" => some .template
  | _ => none

/-- The error taxonomy of spec §7.  In the source every failure is a
`JsError` carrying a message; the constructors here record the distinct
origins the spec names. -/
inductive DumpError : Type where
  | NotSupport (lang : String) : DumpError
  | DocParseError (msg : String) : DumpError
  | PatternCompileError (msg : String) : DumpError
  | InvalidStrictness (strictness : String) : DumpError
  | NoRootMatch : DumpError
deriving DecidableEq, Repr

/-- Modelled from the spec: the external collaborators `dump_pattern` calls
into, each living in a crate outside the verified source and specified only
at its boundary (spec §6, §4.1, §4.2):
* `parseLang` — `lang.parse::<WasmLang>()`, `none` for an unregistered name;
* `pre_process_pattern` — the language-specific meta-variable rewrite;
* `try_new_doc` — `WasmDoc::try_new` plus `root()`: parse the processed
  pattern text into a document and return its root concrete node;
* `compile` — `Pattern::contextual(pattern, sel, lang)` when a selector is
  given, else `Pattern::try_new(pattern, lang)`; yields the compiled
  pattern's matcher-tree root (`pat.node`), or a compile error;
* `find` — `root.root().find(&pat)`: the Matcher, returning the first
  concrete node matching the matcher-tree under the given strictness. -/
structure DumpEnv : Type where
  parseLang : String → Option WasmLang
  pre_process_pattern : WasmLang → String → String
  try_new_doc : WasmLang → String → Except String ConcreteNode
  compile : String → Option String → WasmLang → Except String PatternNode
  find : PatternNode → MatchStrictness → ConcreteNode → Option ConcreteNode

/-- Lines 140-145 of `lib.rs`: run the Matcher on the document root with the
compiled matcher-tree at the chosen strictness; `None` becomes the
`"Pattern has no root node"` failure (`NoRootMatch`), a found node is
reconciled by `dump_pattern_node`. -/
def dump_match (env : DumpEnv) (l : WasmLang) (root : ConcreteNode)
    (patNode : PatternNode) (strict : MatchStrictness) :
    Except DumpError PatternTree :=
  match env.find patNode strict root with
  | none => .error .NoRootMatch
  | some found => .ok (dump_pattern_node l found patNode)

/-- `dump_pattern` of `lib.rs` (lines 115-146): resolve the language,
pre-process and parse the pattern text as a document, compile the pattern
(contextually when a selector is given), then parse the optional strictness
string (a compiled pattern defaults to `smart`, spec §3), run the Matcher,
and reconcile the match with the matcher-tree.  Serialization of the
resulting tree for the host is boundary marshaling, out of scope (spec §1). -/
def dump_pattern (env : DumpEnv) (lang : String) (pattern_str : String)
    (selector : Option String) (strictness : Option String) :
    Except DumpError PatternTree :=
  match env.parseLang lang with
  | none => .error (.NotSupport lang)
  | some l =>
    match env.try_new_doc l (env.pre_process_pattern l pattern_str) with
    | .error e => .error (.DocParseError e)
    | .ok root =>
      match env.compile pattern_str selector l with
      | .error e => .error (.PatternCompileError e)
      | .ok patNode =>
        match strictness with
        | some s =>
          match parse_strictness s with
          | none => .error (.InvalidStrictness s)
          | some strict => dump_match env l root patNode strict
        | none => dump_match env l root patNode .smart

mutual

/-- All nodes of an Output Tree: the node itself and, recursively, all
nodes of its children. -/
def PatternTree.allNodes : PatternTree → List PatternTree
  | .mk k s e n cs t p => .mk k s e n cs t p :: allNodesList cs

/-- All nodes of a forest of Output Trees. -/
def allNodesList : List PatternTree → List PatternTree
  | [] => []
  | t :: ts => t.allNodes ++ allNodesList ts

end

theorem allNodes_def (t : PatternTree) :
    t.allNodes = t :: allNodesList t.children := by
  cases t
  rfl

theorem mem_allNodesList {t : PatternTree} {l : List PatternTree} :
    t ∈ allNodesList l ↔ ∃ u ∈ l, t ∈ u.allNodes := by
  induction l with
  | nil => simp [allNodesList]
  | cons u us ih => simp [allNodesList, ih]

theorem self_mem_allNodes (t : PatternTree) : t ∈ t.allNodes := by
  rw [allNodes_def]
  exact List.mem_cons_self t _

/-- The positional zip of lib.rs lines 180-184, as `List.zipWith`. -/
theorem dump_children_eq_zipWith (lang : WasmLang) (ps : List PatternNode)
    (ns : List ConcreteNode) :
    dump_children lang ps ns =
      List.zipWith (fun p n => dump_pattern_node lang n p) ps ns := by
  induction ps generalizing ns with
  | nil => cases ns <;> rfl
  | cons p ps ih => cases ns with
    | nil => rfl
    | cons n ns => simp [dump_children, ih]

theorem mem_dump_children {lang : WasmLang} {ps : List PatternNode}
    {ns : List ConcreteNode} {u : PatternTree}
    (hu : u ∈ dump_children lang ps ns) :
    ∃ p ∈ ps, ∃ n, u = dump_pattern_node lang n p := by
  induction ps generalizing ns with
  | nil => cases ns <;> simp [dump_children] at hu
  | cons p rest ih =>
    cases ns with
    | nil => simp [dump_children] at hu
    | cons n ns =>
      rw [dump_children] at hu
      rcases List.mem_cons.mp hu with h | h
      · exact ⟨p, List.mem_cons_self p rest, n, h⟩
      · obtain ⟨p', hp', n', hn'⟩ := ih h
        exact ⟨p', List.mem_cons_of_mem p hp', n', hn'⟩

theorem dump_pattern_node_kind (lang : WasmLang) (node : ConcreteNode)
    (p : PatternNode) : (dump_pattern_node lang node p).kind = kindLabel node := by
  cases p <;> rfl

theorem dump_pattern_node_start (lang : WasmLang) (node : ConcreteNode)
    (p : PatternNode) :
    (dump_pattern_node lang node p).start = PatternPos.ofPoint node.start_position := by
  cases p <;> rfl

theorem dump_pattern_node_stop (lang : WasmLang) (node : ConcreteNode)
    (p : PatternNode) :
    (dump_pattern_node lang node p).stop = PatternPos.ofPoint node.end_position := by
  cases p <;> rfl

/-- Every node of the Output Tree produced by `dump_pattern_node` is itself
the image of some visited (concrete node, pattern node) pair. -/
theorem mem_allNodes_dump (lang : WasmLang) (p : PatternNode)
    (node : ConcreteNode) (t : PatternTree)
    (ht : t ∈ (dump_pattern_node lang node p).allNodes) :
    ∃ n q, t = dump_pattern_node lang n q := by
  match p with
  | .MetaVar mv =>
    rw [allNodes_def] at ht
    rcases List.mem_cons.mp ht with h | h
    · exact ⟨node, .MetaVar mv, h⟩
    · simp [dump_pattern_node, PatternTree.children, allNodesList] at h
  | .Terminal tx nm k =>
    rw [allNodes_def] at ht
    rcases List.mem_cons.mp ht with h | h
    · exact ⟨node, .Terminal tx nm k, h⟩
    · simp [dump_pattern_node, PatternTree.children, allNodesList] at h
  | .Internal k ps =>
    rw [allNodes_def] at ht
    rcases List.mem_cons.mp ht with h | h
    · exact ⟨node, .Internal k ps, h⟩
    · have hch : (dump_pattern_node lang node (.Internal k ps)).children =
          dump_children lang ps node.children := rfl
      rw [hch] at h
      obtain ⟨u, hu, htu⟩ := mem_allNodesList.mp h
      obtain ⟨p', hp', n', hn'⟩ := mem_dump_children hu
      have hsz : sizeOf p' < sizeOf (PatternNode.Internal k ps) := by
        have := List.sizeOf_lt_of_mem hp'
        simp only [PatternNode.Internal.sizeOf_spec]
        omega
      exact mem_allNodes_dump lang p' n' t (hn' ▸ htu)
termination_by sizeOf p

/-- C1: For every Internal pattern node reconciled against a concrete node,
the Reconciler pairs pattern children with concrete children positionally in
order (a zip, truncating to the shorter sequence rather than failing); the
resulting Output Tree node has exactly min(pattern-child-count,
concrete-child-count) children, has is_named = true, and carries no captured
text. -/
theorem internal_positional_zip (lang : WasmLang) (node : ConcreteNode)
    (kind_id : Nat) (ps : List PatternNode) :
    (dump_pattern_node lang node (.Internal kind_id ps)).children =
      List.zipWith (fun p n => dump_pattern_node lang n p) ps node.children ∧
    (dump_pattern_node lang node (.Internal kind_id ps)).children.length =
      min ps.length node.children.length ∧
    (dump_pattern_node lang node (.Internal kind_id ps)).is_named = true ∧
    (dump_pattern_node lang node (.Internal kind_id ps)).text = none := by
  refine ⟨dump_children_eq_zipWith lang ps node.children, ?_, rfl, rfl⟩
  show (dump_children lang ps node.children).length = _
  rw [dump_children_eq_zipWith, List.length_zipWith]

/-- C2: For every MetaVar pattern node reconciled against a concrete node,
the Output Tree node is a leaf (empty children even if the concrete node has
children), its is_named flag is true unconditionally, and its captured text
equals the concrete node's source-span text with every occurrence of the
language's expando character replaced by the sigil `$`. -/
theorem metavar_leaf_dump (lang : WasmLang) (node : ConcreteNode)
    (mv : String) :
    (dump_pattern_node lang node (.MetaVar mv)).children = [] ∧
    (dump_pattern_node lang node (.MetaVar mv)).is_named = true ∧
    (dump_pattern_node lang node (.MetaVar mv)).text =
      some (String.mk (node.text.data.map fun c =>
        if c = lang.expando_char then '$' else c)) :=
  ⟨rfl, rfl, rfl⟩

/-- C3: For every Terminal pattern node reconciled against a concrete node,
the Output Tree node is a leaf whose is_named flag is taken from the
pattern's own terminal declaration and whose captured text is the concrete
node's raw source-span text unmodified — expando characters in a Terminal's
text are never replaced by `$`. -/
theorem terminal_leaf_dump (lang : WasmLang) (node : ConcreteNode)
    (tx : String) (nm : Bool) (k : Nat) :
    (dump_pattern_node lang node (.Terminal tx nm k)).children = [] ∧
    (dump_pattern_node lang node (.Terminal tx nm k)).is_named = nm ∧
    (dump_pattern_node lang node (.Terminal tx nm k)).text = some node.text :=
  ⟨rfl, rfl, rfl⟩

/-- C4: For every visited (pattern node, concrete node) pair, the Output
Tree node's kind label is the string "MISSING " followed by the concrete
node's kind name if and only if the parser flagged that concrete node as
missing; otherwise the label is exactly the plain kind name. -/
theorem missing_kind_labeling (lang : WasmLang) (node : ConcreteNode)
    (p : PatternNode) :
    ((dump_pattern_node lang node p).kind =
      if node.is_missing then "MISSING " ++ node.kind else node.kind) ∧
    ((dump_pattern_node lang node p).kind = "MISSING " ++ node.kind ↔
      node.is_missing = true) := by
  rw [dump_pattern_node_kind]
  unfold kindLabel
  refine ⟨rfl, ?_⟩
  by_cases h : node.is_missing
  · simp [h]
  · simp only [Bool.not_eq_true] at h
    simp only [h, if_false, Bool.false_eq_true, iff_false]
    intro hk
    have := congrArg String.length hk
    rw [String.length_append] at this
    have h8 : ("MISSING " : String).length = 8 := rfl
    omega

/-- C7: For any MetaVar pattern node whose matched concrete node's
source-span text contains no occurrence of the language's expando
character, the Output Tree node's captured text equals that text exactly:
the expando-undo replacement is the identity on such text. -/
theorem metavar_text_roundtrip (lang : WasmLang) (node : ConcreteNode)
    (mv : String)
    (h : ∀ c ∈ node.text.data, c ≠ lang.expando_char) :
    (dump_pattern_node lang node (.MetaVar mv)).text = some node.text := by
  show some (replaceExpando lang.expando_char node.text) = some node.text
  unfold replaceExpando
  congr 1
  have hmap : ∀ l : List Char, (∀ c ∈ l, c ≠ lang.expando_char) →
      (l.map fun c => if c = lang.expando_char then '$' else c) = l := by
    intro l hl
    induction l with
    | nil => rfl
    | cons c cs ih =>
      simp only [List.map_cons, List.cons.injEq]
      constructor
      · simp [hl c (List.mem_cons_self c cs)]
      · exact ih fun d hd => hl d (List.mem_cons_of_mem c hd)
  rw [hmap node.text.data h]

/-- A concrete fixture: the number literal `42` at columns 6-8 of line 0
(the spec's §8 example scenario). -/
def nodeFortyTwo : ConcreteNode :=
  .mk "number" false ⟨0, 6⟩ ⟨0, 8⟩ "42" []

/-- Witness for C7 at a concrete input: text `42` is free of the expando
character `µ`, and the dumped MetaVar leaf captures `42` unchanged. -/
theorem metavar_text_roundtrip_witness :
    (∀ c ∈ nodeFortyTwo.text.data, c ≠ WasmLang.expando_char ⟨'µ'⟩) ∧
    (dump_pattern_node ⟨'µ'⟩ nodeFortyTwo (.MetaVar "VALUE")).text =
      some nodeFortyTwo.text :=
  ⟨by decide, metavar_text_roundtrip ⟨'µ'⟩ nodeFortyTwo "VALUE" (by decide)⟩

/-- C8: For every node of the Output Tree, leaf or internal, the start and
end positions are taken from the matched Concrete Node's own start/end
span: each output node is the image of a visited (concrete, pattern) pair
and copies that concrete node's start/end positions. -/
theorem output_positions_from_concrete (lang : WasmLang)
    (node : ConcreteNode) (p : PatternNode) :
    ∀ t ∈ (dump_pattern_node lang node p).allNodes,
      ∃ n q, t = dump_pattern_node lang n q ∧
        t.start = PatternPos.ofPoint n.start_position ∧
        t.stop = PatternPos.ofPoint n.end_position := by
  intro t ht
  obtain ⟨n, q, rfl⟩ := mem_allNodes_dump lang p node t ht
  exact ⟨n, q, rfl, dump_pattern_node_start lang n q,
    dump_pattern_node_stop lang n q⟩

/-- Witness for C8 at a concrete input: the root of the dump of a Terminal
pattern against the `42` node is in its own node list and carries the
concrete node's positions. -/
theorem output_positions_from_concrete_witness :
    (dump_pattern_node ⟨'µ'⟩ nodeFortyTwo (.Terminal "42" true 5)) ∈
      (dump_pattern_node ⟨'µ'⟩ nodeFortyTwo (.Terminal "42" true 5)).allNodes ∧
    ∃ n q, dump_pattern_node ⟨'µ'⟩ nodeFortyTwo (.Terminal "42" true 5) =
        dump_pattern_node ⟨'µ'⟩ n q ∧
      (dump_pattern_node ⟨'µ'⟩ nodeFortyTwo (.Terminal "42" true 5)).start =
        PatternPos.ofPoint n.start_position ∧
      (dump_pattern_node ⟨'µ'⟩ nodeFortyTwo (.Terminal "42" true 5)).stop =
        PatternPos.ofPoint n.end_position :=
  ⟨self_mem_allNodes _,
   output_positions_from_concrete ⟨'µ'⟩ nodeFortyTwo (.Terminal "42" true 5) _
     (self_mem_allNodes _)⟩

/-- C10: Every node of any Output Tree produced by `dump_pattern_node`
carries a pattern-variant tag (the optional tag field is never absent), and
its captured-text field is present if and only if its tag is Terminal or
MetaVar, and absent if and only if its tag is Internal. -/
theorem output_tag_text_invariant (lang : WasmLang) (node : ConcreteNode)
    (p : PatternNode) :
    ∀ t ∈ (dump_pattern_node lang node p).allNodes,
      t.pattern ≠ none ∧
      (t.text ≠ none ↔
        (t.pattern = some PatternKind.Terminal ∨
         t.pattern = some PatternKind.MetaVar)) ∧
      (t.text = none ↔ t.pattern = some PatternKind.Internal) := by
  intro t ht
  obtain ⟨n, q, rfl⟩ := mem_allNodes_dump lang p node t ht
  cases q <;>
    simp [dump_pattern_node, PatternTree.pattern, PatternTree.text]

/-- Witness for C10 at a concrete input: the root of the dump of a MetaVar
pattern against the `42` node satisfies the tag/text invariant. -/
theorem output_tag_text_invariant_witness :
    (dump_pattern_node ⟨'µ'⟩ nodeFortyTwo (.MetaVar "A")) ∈
      (dump_pattern_node ⟨'µ'⟩ nodeFortyTwo (.MetaVar "A")).allNodes ∧
    ((dump_pattern_node ⟨'µ'⟩ nodeFortyTwo (.MetaVar "A")).pattern ≠ none ∧
     ((dump_pattern_node ⟨'µ'⟩ nodeFortyTwo (.MetaVar "A")).text ≠ none ↔
       ((dump_pattern_node ⟨'µ'⟩ nodeFortyTwo (.MetaVar "A")).pattern =
          some PatternKind.Terminal ∨
        (dump_pattern_node ⟨'µ'⟩ nodeFortyTwo (.MetaVar "A")).pattern =
          some PatternKind.MetaVar)) ∧
     ((dump_pattern_node ⟨'µ'⟩ nodeFortyTwo (.MetaVar "A")).text = none ↔
       (dump_pattern_node ⟨'µ'⟩ nodeFortyTwo (.MetaVar "A")).pattern =
         some PatternKind.Internal)) :=
  ⟨self_mem_allNodes _,
   output_tag_text_invariant ⟨'µ'⟩ nodeFortyTwo (.MetaVar "A") _
     (self_mem_allNodes _)⟩

/-- The strictness actually attached to the compiled pattern before
matching: the parsed value when a strictness string is supplied, the
compiled pattern's default `smart` (spec §3) otherwise. -/
def resolve_strictness : Option String → Option MatchStrictness
  | some s => parse_strictness s
  | none => some .smart

/-- A concrete fixture: an empty program root node. -/
def nodeEmpty : ConcreteNode :=
  .mk "program" false ⟨0, 0⟩ ⟨0, 0⟩ "" []

/-- A concrete environment whose pattern compiler rejects every pattern
text — the spec (§4.1, §7) guarantees such pattern texts exist
(PatternCompileError for unparsable patterns). -/
def envNoCompile : DumpEnv where
  parseLang := fun s => if s = "mylang" then some ⟨'µ'⟩ else none
  pre_process_pattern := fun _ s => s
  try_new_doc := fun _ _ => .ok nodeEmpty
  compile := fun _ _ _ => .error "syntax error in pattern"
  find := fun _ _ _ => none

/-- A concrete environment where language resolution, document parse and
pattern compilation all succeed, and the Matcher returns the document
root. -/
def envOk : DumpEnv where
  parseLang := fun s => if s = "mylang" then some ⟨'µ'⟩ else none
  pre_process_pattern := fun _ s => s
  try_new_doc := fun _ _ => .ok nodeFortyTwo
  compile := fun _ _ _ => .ok (.MetaVar "A")
  find := fun _ _ r => some r

/-- C5 as amended: provided the language name resolves, the pre-processed
pattern text parses as a document, and the pattern compiles, calling
dumpPattern with a strictness string outside the closed set {cst, smart,
ast, relaxed, signature, template} fails with InvalidStrictness — whatever
the Matcher would answer (so before any match attempt) — and produces no
Output Tree. -/
theorem invalid_strictness_rejected (env : DumpEnv) (lang pat : String)
    (sel : Option String) (s : String) (l : WasmLang) (root : ConcreteNode)
    (pn : PatternNode)
    (hl : env.parseLang lang = some l)
    (hd : env.try_new_doc l (env.pre_process_pattern l pat) = .ok root)
    (hc : env.compile pat sel l = .ok pn)
    (hs : parse_strictness s = none) :
    ∀ f, dump_pattern { env with find := f } lang pat sel (some s) =
      .error (.InvalidStrictness s) := by
  intro f
  unfold dump_pattern
  simp only [hl, hd, hc, hs]

/-- Counterexample to C5 as stated: it quantifies over every pattern text,
but for a pattern text that fails to compile, dumpPattern fails with
PatternCompileError (pattern compilation runs before strictness
validation), not with InvalidStrictness. -/
theorem invalid_strictness_counterexample :
    dump_pattern envNoCompile "mylang" "(((" none (some "not-a-real-level") =
      .error (.PatternCompileError "syntax error in pattern") ∧
    dump_pattern envNoCompile "mylang" "(((" none (some "not-a-real-level") ≠
      .error (.InvalidStrictness "not-a-real-level") := by
  have h1 : dump_pattern envNoCompile "mylang" "((("
      none (some "not-a-real-level") =
      .error (.PatternCompileError "syntax error in pattern") := rfl
  refine ⟨h1, ?_⟩
  rw [h1]
  simp

/-- Witness for the amended C5 at a concrete input: in `envOk` everything
up to strictness parsing succeeds, `"not-a-real-level"` is not a valid
strictness, and the dump fails with InvalidStrictness for every Matcher. -/
theorem invalid_strictness_rejected_witness :
    envOk.parseLang "mylang" = some ⟨'µ'⟩ ∧
    envOk.try_new_doc ⟨'µ'⟩ (envOk.pre_process_pattern ⟨'µ'⟩ "$A") =
      .ok nodeFortyTwo ∧
    envOk.compile "$A" none ⟨'µ'⟩ = .ok (.MetaVar "A") ∧
    parse_strictness "not-a-real-level" = none ∧
    ∀ f, dump_pattern { envOk with find := f } "mylang" "$A" none
        (some "not-a-real-level") =
      .error (.InvalidStrictness "not-a-real-level") :=
  ⟨rfl, rfl, rfl, rfl,
   invalid_strictness_rejected envOk "mylang" "$A" none "not-a-real-level"
     ⟨'µ'⟩ nodeFortyTwo (.MetaVar "A") rfl rfl rfl rfl⟩

/-- C6: Once the language resolves, the document parses, the pattern
compiles and the strictness resolves, dumpPattern fails with NoRootMatch
exactly when the Matcher reports no match; when a root match is found, the
reconciliation always succeeds, yielding the complete Output Tree of the
matched pair (never a partial tree or an error). -/
theorem no_root_match_semantics (env : DumpEnv) (lang pat : String)
    (sel strictness : Option String) (l : WasmLang) (root : ConcreteNode)
    (pn : PatternNode) (strict : MatchStrictness)
    (hl : env.parseLang lang = some l)
    (hd : env.try_new_doc l (env.pre_process_pattern l pat) = .ok root)
    (hc : env.compile pat sel l = .ok pn)
    (hs : resolve_strictness strictness = some strict) :
    (dump_pattern env lang pat sel strictness = .error .NoRootMatch ↔
      env.find pn strict root = none) ∧
    (∀ m, env.find pn strict root = some m →
      dump_pattern env lang pat sel strictness =
        .ok (dump_pattern_node l m pn)) := by
  have hstep : dump_pattern env lang pat sel strictness =
      dump_match env l root pn strict := by
    unfold dump_pattern
    cases strictness with
    | none =>
      have : strict = .smart := by
        simpa [resolve_strictness] using hs.symm
      simp only [hl, hd, hc, this]
    | some s =>
      have hps : parse_strictness s = some strict := by
        simpa [resolve_strictness] using hs
      simp only [hl, hd, hc, hps]
  rw [hstep]
  unfold dump_match
  constructor
  · cases hf : env.find pn strict root <;> simp
  · intro m hm
    rw [hm]

/-- Witness for C6 at a concrete input: in `envOk` with no strictness
string the dump succeeds, returning the reconciliation of the found node,
and the NoRootMatch iff holds. -/
theorem no_root_match_semantics_witness :
    envOk.parseLang "mylang" = some ⟨'µ'⟩ ∧
    envOk.try_new_doc ⟨'µ'⟩ (envOk.pre_process_pattern ⟨'µ'⟩ "$A") =
      .ok nodeFortyTwo ∧
    envOk.compile "$A" none ⟨'µ'⟩ = .ok (.MetaVar "A") ∧
    resolve_strictness none = some .smart ∧
    ((dump_pattern envOk "mylang" "$A" none none = .error .NoRootMatch ↔
       envOk.find (.MetaVar "A") .smart nodeFortyTwo = none) ∧
     (∀ m, envOk.find (.MetaVar "A") .smart nodeFortyTwo = some m →
       dump_pattern envOk "mylang" "$A" none none =
         .ok (dump_pattern_node ⟨'µ'⟩ m (.MetaVar "A")))) :=
  ⟨rfl, rfl, rfl, rfl,
   no_root_match_semantics envOk "mylang" "$A" none none ⟨'µ'⟩ nodeFortyTwo
     (.MetaVar "A") .smart rfl rfl rfl rfl⟩

/-- C9: pattern compilation — including parsing the pre-processed pattern
text as a document — happens before strictness validation: whatever the
strictness string, a document-parse failure surfaces as that parse error
and a compile failure surfaces as PatternCompileError, never as
InvalidStrictness. -/
theorem compile_precedes_strictness (env : DumpEnv) (lang pat : String)
    (sel : Option String) (s : String) (l : WasmLang)
    (hl : env.parseLang lang = some l) :
    (∀ e, env.try_new_doc l (env.pre_process_pattern l pat) = .error e →
      dump_pattern env lang pat sel (some s) = .error (.DocParseError e)) ∧
    (∀ root e,
      env.try_new_doc l (env.pre_process_pattern l pat) = .ok root →
      env.compile pat sel l = .error e →
      dump_pattern env lang pat sel (some s) =
          .error (.PatternCompileError e) ∧
        dump_pattern env lang pat sel (some s) ≠
          .error (.InvalidStrictness s)) := by
  constructor
  · intro e he
    unfold dump_pattern
    simp only [hl, he]
  · intro root e hroot he
    have h1 : dump_pattern env lang pat sel (some s) =
        .error (.PatternCompileError e) := by
      unfold dump_pattern
      simp only [hl, hroot, he]
    refine ⟨h1, ?_⟩
    rw [h1]
    simp

/-- Witness for C9 at a concrete input: in `envNoCompile` with the invalid
strictness string `"not-a-real-level"`, the dump fails with the compile
error, not with InvalidStrictness. -/
theorem compile_precedes_strictness_witness :
    envNoCompile.parseLang "mylang" = some ⟨'µ'⟩ ∧
    envNoCompile.try_new_doc ⟨'µ'⟩
        (envNoCompile.pre_process_pattern ⟨'µ'⟩ "(((") = .ok nodeEmpty ∧
    envNoCompile.compile "(((" none ⟨'µ'⟩ = .error "syntax error in pattern" ∧
    (dump_pattern envNoCompile "mylang" "(((" none (some "not-a-real-level") =
        .error (.PatternCompileError "syntax error in pattern") ∧
      dump_pattern envNoCompile "mylang" "(((" none
          (some "not-a-real-level") ≠
        .error (.InvalidStrictness "not-a-real-level")) :=
  ⟨rfl, rfl, rfl,
   (compile_precedes_strictness envNoCompile "mylang" "(((" none
       "not-a-real-level" ⟨'µ'⟩ rfl).2 nodeEmpty "syntax error in pattern"
     rfl rfl⟩

end SecureAstGrep
